import Mathlib

/-!
Shallow embedding of the rheos stream-processing pipeline (rheos.go,
parallel.go, the go1.23 iterator bridges, options.go).

A pipeline is a chain of stages connected by channels, supervised by one
errgroup sharing one context.  For runs in which the context is never
cancelled, every `push` succeeds and each stage is the sequential loop of
its goroutine, so a stage is modelled as a function from the list of
elements its upstream emitted to the pair (list of elements it emits,
error its goroutine returns).  The cancellation-sensitive spots (the
consumer racing the errgroup cancellation at the final context check, the
pre-cancelled-context scenario) are modelled with explicit Boolean oracles
resolving the Go select races, so theorems quantify over every outcome.
-/

namespace Rheos

/-- Pipeline error as seen by the errgroup: either the context cancellation
error (Go `context.Canceled`) or an error value returned by a user
callback or source.  Callbacks themselves return `Option ε` (Go `error`,
`nil` = `none`). -/
inductive GErr (ε : Type) where
  | canceled : GErr ε
  | user : ε → GErr ε
deriving DecidableEq

/-- First-error-wins combination used by the errgroup (`errOnce.Do` in
golang.org/x/sync/errgroup): the first non-nil error returned by any
goroutine is kept, later ones are discarded.  It is used here only in
situations where at most one distinct error value occurs, so the argument
order never matters. -/
def firstErr {ε : Type} : Option ε → Option ε → Option ε
  | some e, _ => some e
  | none, r => r

variable {ε I O P R : Type}

/-- FromSlice (rheos.go lines 59 to 71) under a live context: the inner
`seq` yields every slice element in order and returns nil; every `push`
succeeds, and the producer goroutine returns nil. -/
def FromSlice (ε : Type) (S : List I) : List I × Option ε := (S, none)

/-- Loop of the Map goroutine (rheos.go lines 81 to 96) under a live
context: for each upstream element, apply the mapper; on a non-nil error
return it at once (nothing more is emitted); otherwise push the mapped
value (the push succeeds) and continue.  The callback is modelled as
`I → O × Option ε` (the Go mapper receives the context only to observe
cancellation, which does not occur in these runs). -/
def Map (cb : I → O × Option ε) : List I → List O × Option ε
  | [] => ([], none)
  | x :: rest =>
    match cb x with
    | (_, some e) => ([], some e)
    | (mapped, none) =>
      let r := Map cb rest
      (mapped :: r.1, r.2)

/-- Loop of the FilterMap goroutine (rheos.go lines 129 to 147) under a
live context: error first, then the inclusion flag (`continue` skips the
push), then push. -/
def FilterMap (cb : I → O × Bool × Option ε) : List I → List O × Option ε
  | [] => ([], none)
  | x :: rest =>
    match cb x with
    | (_, _, some e) => ([], some e)
    | (mapped, ok, none) =>
      let r := FilterMap cb rest
      if ok then (mapped :: r.1, r.2) else r

/-- Filter (rheos.go lines 108 to 118), defined exactly as in the source:
FilterMap with the callback wrapped to keep the element and use the
predicate result as the inclusion flag. -/
def Filter (cb : I → Bool × Option ε) : List I → List I × Option ε :=
  FilterMap (fun elem => match cb elem with | (ok, err) => (elem, ok, err))

/-- Loop of the Batch goroutine (rheos.go lines 164 to 184): append each
element to the current batch; when the batch length equals `size`, push it
and start a fresh batch; on upstream exhaustion flush a non-empty partial
batch.  `size` is Go `int`, modelled as `Int`. -/
def BatchLoop (size : Int) : List I → List I → List (List I)
  | batch, [] => if 0 < batch.length then [batch] else []
  | batch, x :: rest =>
    let b := batch ++ [x]
    if (b.length : Int) = size then b :: BatchLoop size [] rest
    else BatchLoop size b rest

/-- Batch (rheos.go lines 158 to 191).  The goroutine first evaluates
`make([]I, 0, size)`; in Go a negative capacity makes the runtime panic
(`makeslice: cap out of range`), modelled as `none`.  Otherwise the loop
runs; under a live context Batch has no error source, so only the list of
emitted batches is returned. -/
def Batch (size : Int) (input : List I) : Option (List (List I)) :=
  if size < 0 then none else some (BatchLoop size [] input)

/-- UnBatch (rheos.go lines 195 to 220) under a live context: push every
element of every batch in order; the goroutine returns nil. -/
def UnBatch (ε : Type) (batches : List (List I)) : List I × Option ε :=
  (batches.flatten, none)

/-- Loop of ForEach (rheos.go lines 224 to 240) under a live context: the
`pipe.ctx.Err()` check before each callback sees nil, so the loop calls
the callback on each element, stopping at the first non-nil callback
error. -/
def ForEach (cb : I → Option ε) : List I → Option ε
  | [] => none
  | x :: rest =>
    match cb x with
    | some e => some e
    | none => ForEach cb rest

/-- State threading of Reduce (rheos.go lines 247 to 257): the closure
assigns `initial, err = accum(initial, elem)` and ForEach stops at the
first non-nil error, so on an error the accumulator value returned by the
failing call is kept (the Go code returns the mutated `initial` even on
error). -/
def Reduce (accum : R → I → R × Option ε) : R → List I → R × Option ε
  | acc, [] => (acc, none)
  | acc, x :: rest =>
    match accum acc x with
    | (acc2, some e) => (acc2, some e)
    | (acc2, none) => Reduce accum acc2 rest

/-- Accumulator of Collect (rheos.go lines 264 to 266): append, never an
error. -/
def collectAccum (ε : Type) : List I → I → List I × Option ε :=
  fun acc v => (acc ++ [v], none)

/-- Terminal Reduce (via ForEach) reading the stream of a stage that
emitted `elems` and then terminated with `stageErr`.  When
`stageErr = none`, the channel closes after `elems` and the consumer folds
them all.  When `stageErr = some e`, the stage returned `e` right after
its last successful push; the errgroup records `e` and cancels the shared
context, so the consumer folds every delivered element whose
`pipe.ctx.Err()` check ran before the cancellation: that is all of `elems`
or all but the last (the check for the last delivered element races the
cancellation), chosen by the oracle `lastChecked`.  The pipeline error
returned by `eg.Wait()` is `e` itself: the consumer at worst returns the
cancellation error, which the errgroup discards because `e` was recorded
first (the accumulator is error-free in every scenario modelled here). -/
def ReduceFinish (accum : R → I → R × Option ε) (init : R) (elems : List I)
    (stageErr : Option ε) (lastChecked : Bool) : R × Option (GErr ε) :=
  match stageErr with
  | none =>
    let r := Reduce accum init elems
    (r.1, Option.map GErr.user r.2)
  | some e =>
    let seen := if lastChecked then elems else elems.dropLast
    ((Reduce accum init seen).1, some (GErr.user e))

/-- Collect (rheos.go lines 261 to 269): Reduce with the append
accumulator starting from the empty slice. -/
def CollectFinish (elems : List I) (stageErr : Option ε) (lastChecked : Bool) :
    List I × Option (GErr ε) :=
  ReduceFinish (collectAccum ε) [] elems stageErr lastChecked

/-- Pipeline FromSlice, then Map, then Collect.  The producer never fails,
so the pipeline error combines the producer result with the Map stage
result first-error-wins; `lastChecked` is the consumer oracle of
`CollectFinish`. -/
def MapThenCollect (cb : I → O × Option ε) (S : List I) (lastChecked : Bool) :
    List O × Option (GErr ε) :=
  let p := FromSlice ε S
  let m := Map cb p.1
  CollectFinish m.1 (firstErr p.2 m.2) lastChecked

/-- Pipeline FromSlice, then Batch, then UnBatch, then Collect.  `none`
models the Batch goroutine panicking on a negative size. -/
def BatchRoundTrip (ε : Type) (size : Int) (S : List I) :
    Option (List I × Option (GErr ε)) :=
  (Batch size (FromSlice ε S).1).map fun bs =>
    let u := UnBatch ε bs
    CollectFinish u.1 (firstErr (FromSlice ε S).2 u.2) true

/-- Pipeline FromSlice, then Filter with an error-free predicate, then
Collect. -/
def FilterThenCollect (ε : Type) (p : I → Bool) (S : List I) :
    List I × Option (GErr ε) :=
  let src := FromSlice ε S
  let r := Filter (fun x => (p x, none)) src.1
  CollectFinish r.1 (firstErr src.2 r.2) true

/-- Pipeline FromSlice, then Map f, then Map g, then Collect, with
error-free mappers. -/
def MapMapCollect (ε : Type) (f : I → O) (g : O → P) (S : List I) :
    List P × Option (GErr ε) :=
  let src := FromSlice ε S
  let m1 := Map (fun x => (f x, none)) src.1
  let m2 := Map (fun y => (g y, none)) m1.1
  CollectFinish m2.1 (firstErr src.2 (firstErr m1.2 m2.2)) true

/-- Pipeline FromSlice, then Map with one error-free mapper, then
Collect. -/
def MapCollect (ε : Type) (f : I → O) (S : List I) :
    List O × Option (GErr ε) :=
  let src := FromSlice ε S
  let m := Map (fun x => (f x, none)) src.1
  CollectFinish m.1 (firstErr src.2 m.2) true

/-- Elements the FromSlice producer delivers downstream when the context
is cancelled before the pipeline starts.  Each `push` (rheos.go lines 271
to 278) selects between the already-fired `ctx.Done()` and the send; the
send can only win while the consumer is still receiving.  The consumer
(ForEach) stops receiving after its first receive, because its
`pipe.ctx.Err()` check fails, so at most the first push can deliver;
`firstDelivered` resolves that first select race. -/
def cancelledDelivered (S : List I) (firstDelivered : Bool) : List I :=
  match S, firstDelivered with
  | [], _ => []
  | x :: _, true => [x]
  | _ :: _, false => []

/-- Error returned by the FromSlice producer goroutine under a
pre-cancelled context.  With an empty slice the loop body never runs and
the goroutine returns nil.  If the first push delivers (send branch wins)
and the slice had only that element, the loop ends and the goroutine
returns nil; with more elements the next push finds no receiver, so only
the Done branch is enabled and push returns the cancellation error.  If
the first push does not deliver, it returns the cancellation error at
once. -/
def cancelledProducerErr (ε : Type) (S : List I) (firstDelivered : Bool) :
    Option (GErr ε) :=
  match S, firstDelivered with
  | [], _ => none
  | _ :: rest, true =>
    match rest with
    | [] => none
    | _ :: _ => some GErr.canceled
  | _ :: _, false => some GErr.canceled

/-- ForEach-driven Reduce under a pre-cancelled context: the
`pipe.ctx.Err()` check before each callback fires, so the callback never
runs; on the first delivered element the consumer returns the cancellation
error, and if nothing is delivered the loop ends with nil. -/
def ReduceCancelled (ε : Type) (init : R) (delivered : List I) :
    R × Option (GErr ε) :=
  match delivered with
  | [] => (init, none)
  | _ :: _ => (init, some GErr.canceled)

/-- Pipeline FromSlice then Collect when the shared context is cancelled
before any item is read.  The errgroup returns the first recorded error;
producer and consumer can only return the cancellation error here, so the
combination order is immaterial. -/
def CollectPreCancelled (ε : Type) (S : List I) (firstDelivered : Bool) :
    List I × Option (GErr ε) :=
  let c := ReduceCancelled ε ([] : List I) (cancelledDelivered S firstDelivered)
  (c.1, firstErr (cancelledProducerErr ε S firstDelivered) c.2)

/-- Producer goroutine of FromSeq2 (the go1.23 iterator bridge) under a
live context, driving a conforming iterator modelled as the list of
(value, error) pairs it would yield in order: for each pair the sink sets
`err = seqErr`; on a non-nil pair error it returns false, so the iterator
stops and the value of that pair is never pushed; on a nil pair error the
value is pushed (the push succeeds) and iteration continues; when the
iterator is exhausted the goroutine returns the last assigned error,
nil. -/
def FromSeq2 : List (I × Option ε) → List I × Option ε
  | [] => ([], none)
  | (_, some e) :: _ => ([], some e)
  | (v, none) :: rest =>
    let r := FromSeq2 rest
    (v :: r.1, r.2)

/-- Pipeline FromSeq2 then Collect. -/
def FromSeq2Collect (pairs : List (I × Option ε)) (lastChecked : Bool) :
    List I × Option (GErr ε) :=
  let s := FromSeq2 pairs
  CollectFinish s.1 s.2 lastChecked

/-- Loop of one ParFilterMap worker goroutine (parallel.go lines 23 to
39), applied to the sub-sequence of upstream elements this worker received
from the shared channel; the per-item processing is the FilterMap
algorithm. -/
def ParFilterMapWorker (cb : I → O × Bool × Option ε) :
    List I → List O × Option ε
  | [] => ([], none)
  | x :: rest =>
    match cb x with
    | (_, _, some e) => ([], some e)
    | (mapped, ok, none) =>
      let r := ParFilterMapWorker cb rest
      if ok then (mapped :: r.1, r.2) else r

/-- ParMap worker (parallel.go lines 55 to 66), exactly as in the source:
the ParFilterMap worker with the mapper wrapped with an always-true
inclusion flag. -/
def ParMapWorker (mcb : I → O × Option ε) : List I → List O × Option ε :=
  ParFilterMapWorker
    (fun elem => match mcb elem with | (mapped, err) => (mapped, true, err))

/-! Helper lemmas about the stage loops. -/

theorem map_pure (f : I → O) (l : List I) :
    Map (fun x => ((f x, none) : O × Option ε)) l = (l.map f, none) := by
  induction l with
  | nil => rfl
  | cons x rest ih => simp [Map, ih]

theorem filterMap_pure (p : I → Bool) (l : List I) :
    FilterMap (fun x => ((x, p x, none) : I × Bool × Option ε)) l
      = (l.filter p, none) := by
  induction l with
  | nil => rfl
  | cons x rest ih =>
    cases h : p x <;> simp [FilterMap, List.filter_cons, h, ih]

theorem reduce_collectAccum (l acc : List I) :
    Reduce (collectAccum ε) acc l = (acc ++ l, none) := by
  induction l generalizing acc with
  | nil => simp [Reduce]
  | cons x rest ih => simp [Reduce, collectAccum, ih]

theorem collectFinish_none (elems : List I) (b : Bool) :
    CollectFinish elems (none : Option ε) b = (elems, none) := by
  simp [CollectFinish, ReduceFinish, reduce_collectAccum]

theorem collectFinish_some (elems : List I) (e : ε) (b : Bool) :
    CollectFinish elems (some e) b
      = (if b then elems else elems.dropLast, some (GErr.user e)) := by
  cases b <;> simp [CollectFinish, ReduceFinish, reduce_collectAccum]

theorem batchLoop_flatten (size : Int) (S : List I) :
    ∀ batch : List I, (BatchLoop size batch S).flatten = batch ++ S := by
  induction S with
  | nil =>
    intro batch
    cases batch <;> simp [BatchLoop]
  | cons x rest ih =>
    intro batch
    simp only [BatchLoop]
    by_cases h : (((batch ++ [x]).length : Nat) : Int) = size
    · rw [if_pos h]
      simp [ih]
    · rw [if_neg h, ih]
      simp

theorem map_err_snd (cb : I → O × Option ε) (A : List I) (x : I) (B : List I)
    (e : ε) (hA : ∀ a ∈ A, (cb a).2 = none) (hx : (cb x).2 = some e) :
    (Map cb (A ++ x :: B)).2 = some e := by
  induction A with
  | nil =>
    cases h : cb x with
    | mk o oe =>
      rw [h] at hx
      simp at hx
      simp [Map, h, hx]
  | cons a A2 ih =>
    have ha : (cb a).2 = none := hA a (by simp)
    cases h : cb a with
    | mk o oe =>
      rw [h] at ha
      simp at ha
      subst ha
      simp only [List.cons_append, Map, h]
      exact ih fun a2 hm => hA a2 (by simp [hm])

theorem batchLoop_nonpos (size : Int) (hs : size ≤ 0) (S : List I) :
    ∀ batch : List I,
      BatchLoop size batch S
        = if (batch ++ S).isEmpty then [] else [batch ++ S] := by
  induction S with
  | nil =>
    intro batch
    cases batch <;> simp [BatchLoop]
  | cons x rest ih =>
    intro batch
    have hlen : 0 < (batch ++ [x]).length := by simp
    have hne : ¬ (((batch ++ [x]).length : Nat) : Int) = size := by
      intro hc
      omega
    simp only [BatchLoop, if_neg hne]
    rw [ih (batch ++ [x])]
    simp

theorem batchLoop_dropLast_length (k : Nat) (hk : 0 < k) (S : List I) :
    ∀ batch : List I, batch.length < k →
      ∀ b ∈ (BatchLoop (k : Int) batch S).dropLast, b.length = k := by
  induction S with
  | nil =>
    intro batch hb b hmem
    cases batch with
    | nil => simp [BatchLoop] at hmem
    | cons a t => simp [BatchLoop] at hmem
  | cons x rest ih =>
    intro batch hb b hmem
    simp only [BatchLoop] at hmem
    by_cases h : (((batch ++ [x]).length : Nat) : Int) = ((k : Nat) : Int)
    · rw [if_pos h] at hmem
      have hlen : (batch ++ [x]).length = k := by exact_mod_cast h
      cases hL : BatchLoop ((k : Nat) : Int) ([] : List I) rest with
      | nil =>
        rw [hL] at hmem
        simp at hmem
      | cons c L2 =>
        rw [hL] at hmem
        rw [List.dropLast_cons₂] at hmem
        rcases List.mem_cons.mp hmem with hb2 | hmem2
        · rw [hb2]
          exact hlen
        · exact ih [] (by simpa using hk) b (by rw [hL]; exact hmem2)
    · rw [if_neg h] at hmem
      have hne : (batch ++ [x]).length ≠ k := by
        intro hc
        exact h (by exact_mod_cast hc)
      have hlen1 : (batch ++ [x]).length = batch.length + 1 := by simp
      have hlt : (batch ++ [x]).length < k := by omega
      exact ih (batch ++ [x]) hlt b hmem

theorem batchLoop_getLast_length (k : Nat) (hk : 0 < k) (S : List I) :
    ∀ batch : List I, batch.length < k →
      ∀ b ∈ (BatchLoop (k : Int) batch S).getLast?,
        b.length = if (batch.length + S.length) % k = 0 then k
                   else (batch.length + S.length) % k := by
  induction S with
  | nil =>
    intro batch hb b hmem
    cases batch with
    | nil => simp [BatchLoop] at hmem
    | cons a t =>
      simp [BatchLoop] at hmem
      subst hmem
      have h1 : (a :: t).length % k = (a :: t).length := Nat.mod_eq_of_lt hb
      have h2 : (a :: t).length ≠ 0 := by simp
      simp only [List.length_nil, Nat.add_zero, h1, if_neg h2]
  | cons x rest ih =>
    intro batch hb b hmem
    simp only [BatchLoop] at hmem
    by_cases h : (((batch ++ [x]).length : Nat) : Int) = ((k : Nat) : Int)
    · rw [if_pos h] at hmem
      have hlen : (batch ++ [x]).length = k := by exact_mod_cast h
      have hbk : batch.length + 1 = k := by simpa using hlen
      cases hL : BatchLoop ((k : Nat) : Int) ([] : List I) rest with
      | nil =>
        rw [hL] at hmem
        have hrest : rest = [] := by
          have hf := batchLoop_flatten ((k : Nat) : Int) rest ([] : List I)
          rw [hL] at hf
          simpa using hf.symm
        subst hrest
        simp at hmem
        subst hmem
        have htot : batch.length + (x :: ([] : List I)).length = k := by
          simpa using hbk
        rw [htot, Nat.mod_self, if_pos rfl]
        exact hlen
      | cons c L2 =>
        rw [hL] at hmem
        rw [List.getLast?_cons_cons] at hmem
        have hres := ih [] (by simpa using hk) b (by rw [hL]; exact hmem)
        have harith : (batch.length + (x :: rest).length) % k = rest.length % k := by
          have htot : batch.length + (x :: rest).length = k + rest.length := by
            simp only [List.length_cons]
            omega
          rw [htot, Nat.add_mod_left]
        rw [harith]
        simpa using hres
    · rw [if_neg h] at hmem
      have hne : (batch ++ [x]).length ≠ k := by
        intro hc
        exact h (by exact_mod_cast hc)
      have hlen1 : (batch ++ [x]).length = batch.length + 1 := by simp
      have hlt : (batch ++ [x]).length < k := by omega
      have hres := ih (batch ++ [x]) hlt b hmem
      have harith : (batch ++ [x]).length + rest.length
          = batch.length + (x :: rest).length := by
        simp only [List.length_append, List.length_cons, List.length_nil]
        omega
      rw [harith] at hres
      exact hres

theorem parMapWorker_pure (f : I → O) (w : List I) :
    ParMapWorker (fun x => ((f x, none) : O × Option ε)) w = (w.map f, none) := by
  show ParFilterMapWorker (fun x => ((f x, true, none) : O × Bool × Option ε)) w
      = (w.map f, none)
  induction w with
  | nil => rfl
  | cons x rest ih => simp [ParFilterMapWorker, ih]

/-! Claim theorems. -/

/-- C2: for every finite input sequence S and batch size k > 0, with no
cancellation and no callback error, Collect(UnBatch(Batch(Source(S), k)))
is exactly S in order with a nil error; every batch emitted by Batch
except possibly the last has length k; if S.length mod k is nonzero the
last batch has that length; and Batch over empty input emits zero
batches. -/
theorem batch_unbatch_roundtrip (ε : Type) (S : List I) (k : Nat) (hk : 0 < k) :
    BatchRoundTrip ε (k : Int) S = some (S, none)
    ∧ ∃ bs, Batch (k : Int) S = some bs
        ∧ (∀ b ∈ bs.dropLast, b.length = k)
        ∧ (S.length % k ≠ 0 → ∀ b ∈ bs.getLast?, b.length = S.length % k)
        ∧ (S = [] → bs = []) := by
  have hnn : ¬ ((k : Int) < 0) := by
    have : (0 : Int) ≤ (k : Int) := Int.natCast_nonneg k
    omega
  constructor
  · simp [BatchRoundTrip, Batch, hnn, FromSlice, UnBatch, firstErr,
      collectFinish_none, batchLoop_flatten]
  · refine ⟨BatchLoop (k : Int) [] S, by simp [Batch, hnn], ?_, ?_, ?_⟩
    · exact batchLoop_dropLast_length k hk S [] (by simpa using hk)
    · intro hmod b hmem
      have hres := batchLoop_getLast_length k hk S [] (by simpa using hk) b hmem
      simpa [hmod] using hres
    · rintro rfl
      simp [BatchLoop]

/-- Witness for C2 at S = [1, 2, 3], k = 2. -/
theorem batch_unbatch_roundtrip_witness :
    0 < 2
    ∧ BatchRoundTrip Unit ((2 : Nat) : Int) ([1, 2, 3] : List Nat)
        = some ([1, 2, 3], none) :=
  ⟨by decide, (batch_unbatch_roundtrip Unit ([1, 2, 3] : List Nat) 2 (by decide)).1⟩

/-- C3: for every finite input sequence S and error-free filter predicate
p, with no cancellation, Collect(Filter(Source(S), p)) is exactly the
sub-sequence of S satisfying p, in the original order, with a nil
error. -/
theorem filter_collect (ε : Type) (p : I → Bool) (S : List I) :
    FilterThenCollect ε p S = (S.filter p, none) := by
  have hfil : Filter (fun x => ((p x, none) : Bool × Option ε)) S
      = (S.filter p, none) := by
    have hdef : Filter (fun x => ((p x, none) : Bool × Option ε)) S
        = FilterMap (fun x => ((x, p x, none) : I × Bool × Option ε)) S := rfl
    rw [hdef, filterMap_pure]
  simp [FilterThenCollect, FromSlice, firstErr, hfil, collectFinish_none]

/-- C4: for every finite input sequence S and error-free mappers f and g,
with no cancellation, Collect(Map(Map(Source(S), f), g)) equals
Collect(Map(Source(S), g after f)): the same elements in input order and
a nil error. -/
theorem map_composition (ε : Type) (f : I → O) (g : O → P) (S : List I) :
    MapMapCollect ε f g S = MapCollect ε (fun x => g (f x)) S
    ∧ (MapMapCollect ε f g S).1 = S.map (fun x => g (f x))
    ∧ (MapMapCollect ε f g S).2 = none := by
  have h1 : MapMapCollect ε f g S = (S.map (fun x => g (f x)), none) := by
    simp [MapMapCollect, FromSlice, map_pure, firstErr, collectFinish_none,
      List.map_map, Function.comp]
  have h2 : MapCollect ε (fun x => g (f x)) S
      = (S.map (fun x => g (f x)), none) := by
    simp [MapCollect, FromSlice, map_pure, firstErr, collectFinish_none]
  exact ⟨h1.trans h2.symm, by rw [h1], by rw [h1]⟩

/-- C5: Map and Filter are specializations of FilterMap: for every
callback, Map produces the same emitted elements, order and error as
FilterMap with an always-true inclusion flag, and Filter the same as
FilterMap with the identity mapping. -/
theorem map_filter_specialize_filterMap (mcb : I → O × Option ε)
    (fcb : I → Bool × Option ε) (l : List I) :
    Map mcb l = FilterMap (fun x => ((mcb x).1, true, (mcb x).2)) l
    ∧ Filter fcb l = FilterMap (fun x => (x, (fcb x).1, (fcb x).2)) l := by
  constructor
  · induction l with
    | nil => rfl
    | cons x rest ih =>
      cases h : mcb x with
      | mk mapped err =>
        cases err <;> simp [Map, FilterMap, h, ih]
  · have hwrap : (fun elem => match fcb elem with | (ok, err) => (elem, ok, err))
        = fun x => ((x, (fcb x).1, (fcb x).2) : I × Bool × Option ε) := by
      funext x
      cases fcb x
      rfl
    show FilterMap (fun elem => match fcb elem with | (ok, err) => (elem, ok, err)) l
        = FilterMap (fun x => (x, (fcb x).1, (fcb x).2)) l
    rw [hwrap]

/-- C1 counterexample: Source [1, 2, 3] through a Map whose callback fails
on the third element, then Collect.  In every resolution of the final
context-check race (both oracle values) Collect returns a non-empty list
alongside the error, so the partial results are not discarded. -/
theorem collect_partial_counterexample :
    (MapThenCollect
        (fun n => ((n * 10, if n = 3 then some 42 else none) : Nat × Option Nat))
        [1, 2, 3] true).1 ≠ []
    ∧ (MapThenCollect
        (fun n => ((n * 10, if n = 3 then some 42 else none) : Nat × Option Nat))
        [1, 2, 3] false).1 ≠ [] := by
  constructor <;> decide

/-- C1 amended: when the terminal consumer returns a non-nil error, the
results accumulated before the error form a prefix, in order, of the
elements the failing stage emitted — possibly empty, possibly all of
them — and are returned alongside exactly the pipeline's first error;
they are not in general discarded (the counterexample pipeline returns a
non-empty partial collection together with the error).  Proved here for
the modelled single-stage unbuffered pipeline, for every resolution of
the consumer's final context-check race. -/
theorem collect_returns_partial (cb : I → O × Option ε) (A : List I) (x : I)
    (B : List I) (e : ε) (b : Bool)
    (hA : ∀ a ∈ A, (cb a).2 = none) (hx : (cb x).2 = some e) :
    (MapThenCollect cb (A ++ x :: B) b).2 = some (GErr.user e)
    ∧ ∃ t, (MapThenCollect cb (A ++ x :: B) b).1 ++ t
        = (Map cb (A ++ x :: B)).1 := by
  have h2 := map_err_snd cb A x B e hA hx
  have hm : MapThenCollect cb (A ++ x :: B) b
      = CollectFinish (Map cb (A ++ x :: B)).1 (Map cb (A ++ x :: B)).2 b := rfl
  rw [hm, h2, collectFinish_some]
  refine ⟨rfl, ?_⟩
  cases b with
  | true => exact ⟨[], by simp⟩
  | false =>
    by_cases hnil : (Map cb (A ++ x :: B)).1 = []
    · exact ⟨[], by simp [hnil]⟩
    · exact ⟨[(Map cb (A ++ x :: B)).1.getLast hnil],
        by simp [List.dropLast_append_getLast hnil]⟩

/-- Witness for the amended C1 at the counterexample input with the
oracle resolving the race against the last delivered element. -/
theorem collect_returns_partial_witness :
    (∀ a ∈ ([1, 2] : List Nat),
        ((fun n => ((n * 10, if n = 3 then some 42 else none) : Nat × Option Nat)) a).2
          = none)
    ∧ ((fun n => ((n * 10, if n = 3 then some 42 else none) : Nat × Option Nat)) 3).2
        = some 42
    ∧ ((MapThenCollect
          (fun n => ((n * 10, if n = 3 then some 42 else none) : Nat × Option Nat))
          ([1, 2] ++ 3 :: []) false).2 = some (GErr.user 42)
        ∧ ∃ t, (MapThenCollect
            (fun n => ((n * 10, if n = 3 then some 42 else none) : Nat × Option Nat))
            ([1, 2] ++ 3 :: []) false).1 ++ t
          = (Map (fun n => ((n * 10, if n = 3 then some 42 else none) : Nat × Option Nat))
              ([1, 2] ++ 3 :: [])).1) :=
  ⟨by decide, by decide,
    collect_returns_partial _ [1, 2] 3 [] 42 false (by decide) (by decide)⟩

/-- C6 counterexample: with an empty input slice and the context cancelled
before any item is read, the producer loop never runs, the consumer sees
only a closed channel, no goroutine returns an error, and Collect returns
a nil error, contradicting the claim that the error is never nil. -/
theorem precancel_empty_counterexample :
    CollectPreCancelled Nat ([] : List Nat) true = ([], none)
    ∧ CollectPreCancelled Nat ([] : List Nat) false = ([], none) := by
  constructor <;> rfl

/-- C6 amended: for every non-empty finite input sequence, if the shared
context is cancelled before any item is read then Collect returns the
empty result together with the cancellation error, in every resolution of
the select race of the first push. -/
theorem precancelled_collect_empty_error (ε : Type) (S : List I) (b : Bool)
    (h : S ≠ []) :
    CollectPreCancelled ε S b = ([], some GErr.canceled) := by
  cases S with
  | nil => exact absurd rfl h
  | cons x rest => cases b <;> cases rest <;> rfl

/-- Witness for the amended C6 at S = [1]. -/
theorem precancelled_collect_empty_error_witness :
    ([1] : List Nat) ≠ []
    ∧ CollectPreCancelled Nat ([1] : List Nat) true = ([], some GErr.canceled) :=
  ⟨by decide, precancelled_collect_empty_error Nat [1] true (by decide)⟩

/-- C7: when the only failure source of the pipeline is one stage callback
returning error e after some of the items, the terminal consumer returns
exactly e (injected unchanged into the pipeline error type), not wrapped
and not combined with any other error, for every resolution of the final
context-check race and regardless of how many items were emitted before
the failure. -/
theorem callback_error_returned_exactly (cb : I → O × Option ε) (A : List I)
    (x : I) (B : List I) (e : ε) (b : Bool)
    (hA : ∀ a ∈ A, (cb a).2 = none) (hx : (cb x).2 = some e) :
    (MapThenCollect cb (A ++ x :: B) b).2 = some (GErr.user e) := by
  have h2 := map_err_snd cb A x B e hA hx
  have hm : MapThenCollect cb (A ++ x :: B) b
      = CollectFinish (Map cb (A ++ x :: B)).1 (Map cb (A ++ x :: B)).2 b := rfl
  rw [hm, h2, collectFinish_some]

/-- Witness for C7 with the callback failing on the second of three
items. -/
theorem callback_error_returned_exactly_witness :
    (∀ a ∈ ([1] : List Nat),
        ((fun n => ((n * 10, if n = 2 then some 42 else none) : Nat × Option Nat)) a).2
          = none)
    ∧ ((fun n => ((n * 10, if n = 2 then some 42 else none) : Nat × Option Nat)) 2).2
        = some 42
    ∧ (MapThenCollect
        (fun n => ((n * 10, if n = 2 then some 42 else none) : Nat × Option Nat))
        ([1] ++ 2 :: [3]) true).2 = some (GErr.user 42) :=
  ⟨by decide, by decide,
    callback_error_returned_exactly _ [1] 2 [3] 42 true (by decide) (by decide)⟩

/-- C8: for every finite input sequence S, worker count n of at least 1
and error-free mapper f, with no cancellation, Collect(ParMap(Source(S),
n, f)) treated as a multiset equals the multiset of f over S.  The
channel nondeterminism is overapproximated: the per-worker input lists
`ws` are any lists whose concatenation is a permutation of S (channel
dispatch gives each element to exactly one worker), and the collected
output is any list that is a permutation of the concatenation of the
worker outputs (the interleaving of the workers pushing into the shared
downstream channel); the equality holds for every such behaviour. -/
theorem parMap_multiset_equality (ε : Type) (f : I → O) (S : List I) (n : Nat)
    (ws : List (List I)) (out : List O)
    (hn : 1 ≤ n) (hws : ws.length = n)
    (hdispatch : ws.flatten.Perm S)
    (hout : out.Perm
      (ws.map (fun w =>
        (ParMapWorker (fun x => ((f x, none) : O × Option ε)) w).1)).flatten) :
    (out : Multiset O) = ((S.map f : List O) : Multiset O) := by
  rw [Multiset.coe_eq_coe]
  have hmap : (ws.map (fun w =>
      (ParMapWorker (fun x => ((f x, none) : O × Option ε)) w).1))
      = ws.map (fun w => w.map f) := by
    simp [parMapWorker_pure]
  rw [hmap] at hout
  have hflat : (ws.map (fun w => w.map f)).flatten = ws.flatten.map f :=
    (List.map_flatten f ws).symm
  rw [hflat] at hout
  exact hout.trans (hdispatch.map f)

/-- Witness for C8 with two workers, S = [1, 2] dispatched reversed, and
the output interleaved as [3, 2]. -/
theorem parMap_multiset_equality_witness :
    1 ≤ 2
    ∧ ([[2], [1]] : List (List Nat)).length = 2
    ∧ ([[2], [1]] : List (List Nat)).flatten.Perm [1, 2]
    ∧ ([3, 2] : List Nat).Perm
        (([[2], [1]] : List (List Nat)).map (fun w =>
          (ParMapWorker (fun x => ((x + 1, none) : Nat × Option Unit)) w).1)).flatten
    ∧ (([3, 2] : List Nat) : Multiset Nat)
        = ((([1, 2] : List Nat).map (fun x => x + 1) : List Nat) : Multiset Nat) :=
  ⟨by decide, by decide, by decide, by decide,
    parMap_multiset_equality Unit (fun x => x + 1) [1, 2] 2 [[2], [1]] [3, 2]
      (by decide) (by decide) (by decide) (by decide)⟩

/-- C9 counterexample: with batch size -1 and input [1] the claim predicts
one batch containing all of S, but the Batch goroutine evaluates
`make([]I, 0, -1)`, which panics in Go, so no batch is ever produced. -/
theorem batch_negative_size_counterexample :
    Batch (-1) ([1] : List Nat) = none
    ∧ Batch (-1) ([1] : List Nat) ≠ some [[1]] := by
  constructor <;> decide

/-- C9 amended: for batch size 0 (violating the documented size > 0
precondition) the length check never fires, so Batch emits nothing while
upstream is open and then exactly one batch containing all of a non-empty
S in order, and nothing for empty S; for negative sizes the stage panics
on the initial `make` call before reading any element, so it emits no
batch at all. -/
theorem batch_nonpositive_size (size : Int) (S : List I) (h : size ≤ 0) :
    Batch size S
      = if size < 0 then none
        else if S.isEmpty then some [] else some [S] := by
  by_cases hneg : size < 0
  · simp [Batch, hneg]
  · rw [if_neg hneg]
    simp only [Batch, if_neg hneg]
    rw [batchLoop_nonpos size h S []]
    cases S <;> simp

/-- Witness for the amended C9 at size 0, S = [1, 2]. -/
theorem batch_nonpositive_size_witness :
    (0 : Int) ≤ 0 ∧ Batch (0 : Int) ([1, 2] : List Nat) = some [[1, 2]] :=
  ⟨by decide, by
    have h := batch_nonpositive_size (0 : Int) ([1, 2] : List Nat) (by decide)
    simpa using h⟩

/-- C10: for every iterator handed to FromSeq2 that yields some pairs with
nil errors and then a pair carrying error e, the values of the nil-error
pairs are emitted downstream in order, the value paired with e is
discarded and iteration stops there, and the pipeline error surfaced by
Collect is exactly e, in every resolution of the consumer race. -/
theorem fromSeq2_error_stops (pre : List I) (v : I) (e : ε)
    (rest : List (I × Option ε)) (b : Bool) :
    FromSeq2 (pre.map (fun x => (x, none)) ++ (v, some e) :: rest) = (pre, some e)
    ∧ (FromSeq2Collect (pre.map (fun x => (x, none)) ++ (v, some e) :: rest) b).2
        = some (GErr.user e) := by
  have h1 : FromSeq2 (pre.map (fun x => ((x, none) : I × Option ε))
      ++ (v, some e) :: rest) = (pre, some e) := by
    induction pre with
    | nil => rfl
    | cons y ys ih => simp [FromSeq2, ih]
  refine ⟨h1, ?_⟩
  have hm : FromSeq2Collect (pre.map (fun x => (x, none)) ++ (v, some e) :: rest) b
      = CollectFinish
          (FromSeq2 (pre.map (fun x => (x, none)) ++ (v, some e) :: rest)).1
          (FromSeq2 (pre.map (fun x => (x, none)) ++ (v, some e) :: rest)).2 b := rfl
  rw [hm, h1, collectFinish_some]

end Rheos
